import Mathlib

/-!
# Verification of the themelio-node block tree and mempool

A shallow embedding of the fork-aware block database
(`src/libs/blkdb/src/tree.rs`) and the mempool
(`src/src/storage/mempool.rs`), together with theorems settling the
frozen claims about them.

Machine integers: block heights and weights are `u64`/`u128` in the
source; they are modelled as `Nat`.  The only subtractions performed by
the modelled code are `saturating_sub` (which agrees with `Nat`
subtraction) and the `BlockHeight` subtraction `height - 1` in
`remove_childless`, which is only exercised here under a `1 ≤ height`
hypothesis, where it also agrees with `Nat` subtraction.  The `u128`
weight accumulation is reduced modulo `2^128`.

The pluggable ordered key-value backend (`DbBackend`) is an external
trait whose definition file is not part of the sources; it is modelled
from the spec (§6) as an association list ordered by key.  The external
`SealedState` validator, serializer and hash function are opaque
collaborators; they are abstracted into a structure of functions
(`BlkOps`), exactly as the spec treats them ("we treat
`SealedState::apply_block` as a pure, externally-provided validator").
-/

/-! ## Ordered association lists

Modelled from the spec: the `DbBackend` trait (its file
`src/libs/blkdb/src/traits.rs` is not among the sources); §6 requires
point `get`, last-write-wins `insert`, `remove`, and an inclusive
lexicographic `key_range`.  An association list kept ordered by a strict
key order `ltb` realizes all four. -/

variable {κ ν : Type} [DecidableEq κ]

/-- Point lookup: first entry with the given key. -/
def alGet : List (κ × ν) → κ → Option ν
  | [], _ => none
  | (k, v) :: rest, k2 => if k2 = k then some v else alGet rest k2

/-- Last-write-wins insert, keeping the list ordered by `ltb`. -/
def alInsert (ltb : κ → κ → Bool) (k : κ) (v : ν) : List (κ × ν) → List (κ × ν)
  | [] => [(k, v)]
  | (k2, v2) :: rest =>
    if ltb k k2 then (k, v) :: (k2, v2) :: rest
    else if k = k2 then (k, v) :: rest
    else (k2, v2) :: alInsert ltb k v rest

/-- Remove the entries with the given key. -/
def alRemove (k : κ) : List (κ × ν) → List (κ × ν)
  | [] => []
  | (k2, v2) :: rest => if k2 = k then alRemove k rest else (k2, v2) :: alRemove k rest

/-- The list is strictly ordered by `ltb` on keys. -/
def alSorted (ltb : κ → κ → Bool) (l : List (κ × ν)) : Prop :=
  l.Pairwise (fun a b => ltb a.1 b.1 = true)

instance (ltb : κ → κ → Bool) (l : List (κ × ν)) : Decidable (alSorted ltb l) := by
  unfold alSorted; infer_instance

theorem alGet_insert (ltb : κ → κ → Bool) (k k2 : κ) (v : ν) (l : List (κ × ν)) :
    alGet (alInsert ltb k v l) k2 = if k2 = k then some v else alGet l k2 := by
  induction l with
  | nil => simp [alInsert, alGet]
  | cons a rest ih =>
    obtain ⟨ka, va⟩ := a
    by_cases hlt : ltb k ka
    · simp [alInsert, hlt, alGet]
    · by_cases heq : k = ka
      · subst heq
        simp only [alInsert, hlt, if_false, if_pos rfl, alGet]
        by_cases h2 : k2 = k <;> simp [h2]
      · simp only [alInsert, hlt, if_false, heq, alGet]
        by_cases h2 : k2 = ka
        · subst h2
          have hne : ¬ k2 = k := fun h => heq h.symm
          simp [alGet, hne]
        · simp [alGet, h2, ih]

theorem alGet_remove (k k2 : κ) (l : List (κ × ν)) :
    alGet (alRemove k l) k2 = if k2 = k then none else alGet l k2 := by
  induction l with
  | nil => simp [alRemove, alGet]
  | cons a rest ih =>
    obtain ⟨ka, va⟩ := a
    by_cases hka : ka = k
    · subst hka
      simp only [alRemove, if_true, ih, alGet]
      by_cases h2 : k2 = ka <;> simp [h2]
    · simp only [alRemove, hka, if_false, alGet]
      by_cases h2 : k2 = ka
      · subst h2
        have hne : ¬ k2 = k := fun h => hka h
        simp [hne]
      · simp [h2, ih]

theorem alGet_mem {l : List (κ × ν)} {k : κ} {v : ν} (h : alGet l k = some v) :
    (k, v) ∈ l := by
  induction l with
  | nil => simp [alGet] at h
  | cons a rest ih =>
    obtain ⟨ka, va⟩ := a
    simp only [alGet] at h
    by_cases h2 : k = ka
    · subst h2; simp only [if_true] at h
      cases h; exact List.mem_cons_self _ _
    · simp only [h2, if_false] at h
      exact List.mem_cons_of_mem _ (ih h)

theorem alMem_get (ltb : κ → κ → Bool) (hirr : ∀ a : κ, ltb a a = false)
    {l : List (κ × ν)} (hs : alSorted ltb l) {k : κ} {v : ν}
    (h : (k, v) ∈ l) : alGet l k = some v := by
  induction l with
  | nil => simp at h
  | cons a rest ih =>
    obtain ⟨ka, va⟩ := a
    rcases List.mem_cons.1 h with h1 | h1
    · cases h1; simp [alGet]
    · have hlt : ltb ka k = true := (List.pairwise_cons.1 hs).1 (k, v) h1
      have hne : k ≠ ka := by
        intro he; subst he
        rw [hirr k] at hlt; cases hlt
      simp only [alGet, hne, if_false]
      exact ih (List.pairwise_cons.1 hs).2 h1

theorem alInsert_self (ltb : κ → κ → Bool) (hirr : ∀ a : κ, ltb a a = false)
    (htr : ∀ a b c : κ, ltb a b = true → ltb b c = true → ltb a c = true)
    {l : List (κ × ν)} (hs : alSorted ltb l) {k : κ} {v : ν}
    (h : alGet l k = some v) : alInsert ltb k v l = l := by
  induction l with
  | nil => simp [alGet] at h
  | cons a rest ih =>
    obtain ⟨ka, va⟩ := a
    by_cases heq : k = ka
    · subst heq
      simp only [alGet, if_pos rfl] at h
      cases h
      simp [alInsert, hirr k]
    · simp only [alGet, heq, if_false] at h
      have hmem : (k, v) ∈ rest := alGet_mem h
      have hlt : ltb ka k = true := (List.pairwise_cons.1 hs).1 (k, v) hmem
      have hnlt : ltb k ka = false := by
        cases hgoal : ltb k ka
        · rfl
        · have := htr k ka k hgoal hlt
          rw [hirr k] at this; cases this
      simp [alInsert, hnlt, heq, ih (List.pairwise_cons.1 hs).2 h]

theorem alRemove_absent {l : List (κ × ν)} {k : κ} (h : alGet l k = none) :
    alRemove k l = l := by
  induction l with
  | nil => rfl
  | cons a rest ih =>
    obtain ⟨ka, va⟩ := a
    simp only [alGet] at h
    by_cases h2 : k = ka
    · simp [h2] at h
    · simp only [h2, if_false] at h
      have hne : ¬ ka = k := fun he => h2 he.symm
      simp [alRemove, hne, ih h]

/-! ## Ordered sets of hashes (model of `BTreeSet<HashVal>`) -/

/-- Insert into an ascending list without duplicates (`BTreeSet::insert`). -/
def setInsert (x : Nat) : List Nat → List Nat
  | [] => [x]
  | y :: ys => if x < y then x :: y :: ys else if x = y then y :: ys else y :: setInsert x ys

/-- Remove from the set (`BTreeSet::remove`). -/
def setErase (x : Nat) (l : List Nat) : List Nat :=
  l.filter (fun y => y ≠ x)

theorem setInsert_idem (x : Nat) (l : List Nat) :
    setInsert x (setInsert x l) = setInsert x l := by
  induction l with
  | nil => simp [setInsert]
  | cons y ys ih =>
    by_cases h1 : x < y
    · simp [setInsert, h1, lt_irrefl]
    · by_cases h2 : x = y
      · subst h2; simp [setInsert, h1, lt_irrefl]
      · simp [setInsert, h1, h2, ih]

theorem setInsert_ne_nil (x : Nat) (l : List Nat) : setInsert x l ≠ [] := by
  cases l with
  | nil => simp [setInsert]
  | cons y ys =>
    simp only [setInsert]
    by_cases h1 : x < y
    · simp [h1]
    · by_cases h2 : x = y <;> simp [h1, h2]

theorem mem_setInsert_self (x : Nat) (l : List Nat) : x ∈ setInsert x l := by
  induction l with
  | nil => simp [setInsert]
  | cons y ys ih =>
    by_cases h1 : x < y
    · simp [setInsert, h1]
    · by_cases h2 : x = y
      · subst h2; simp [setInsert, h1]
      · simp [setInsert, h1, h2, ih]

/-! ## Data model (`src/libs/blkdb/src/tree.rs`) -/

/-- A 32-byte block hash (`tmelcrypt::HashVal`), abstracted to `Nat`
(bounded by `2^256` where the range scans rely on it). -/
abbrev Hash := Nat

/-- A backend key: 40 bytes, big-endian `u64` height followed by the
32-byte hash (`main_key`).  Lexicographic byte order on the 40-byte keys
coincides with lexicographic order on the `(height, hash)` pair, which is
how the key is modelled. -/
abbrev Key := Nat × Nat

/-- Strict lexicographic order on keys (the backend's byte order). -/
def keyLtB (a b : Key) : Bool :=
  decide (a.1 < b.1) || (decide (a.1 = b.1) && decide (a.2 < b.2))

/-- Strict order on hashes (for the cache's canonical representation). -/
def natLtB (a b : Nat) : Bool := decide (a < b)

/-- Sentinel height of the tips table: `u64::MAX - 1`. -/
def TIPH : Nat := 2 ^ 64 - 2

/-- Sentinel height of the hash-to-height index: `u64::MAX`. -/
def IDXH : Nat := 2 ^ 64 - 1

/-- Largest 32-byte hash value, `HashVal([0xff; 32])`. -/
def HMAX : Nat := 2 ^ 256 - 1

def main_key (blkhash : Hash) (height : Nat) : Key := (height, blkhash)

def tip_key (blkhash : Hash) : Key := (TIPH, blkhash)

def index_key (blkhash : Hash) : Key := (IDXH, blkhash)

/-- The canonical block header.  Only `height` and `previous` are read by
the block tree; every other header field (content hashes and so on) is
folded into the opaque `rest`. -/
structure Header where
  height : Nat
  previous : Hash
  rest : Nat
deriving DecidableEq, Repr

/-- A block: its header plus an opaque body (transaction set and
proposer action), which only the external validator inspects. -/
structure Block where
  header : Header
  body : Nat
deriving DecidableEq, Repr

/-- On-disk record per block (`InternalValue`): header, compact partial
state encoding, optional proposer action, ordered child-hash set,
opaque metadata. -/
structure InternalValue where
  header : Header
  pstate : List Nat
  action : Option Nat
  next : List Hash
  metadata : List Nat
deriving DecidableEq, Repr

/-- A stored backend value: a serialized record (main table) or a
serialized height (tips table and index).  The canonical serialization
round-trips bit-exactly, so values are stored structurally. -/
inductive Val where
  | rcd (v : InternalValue)
  | ht (h : Nat)
deriving DecidableEq, Repr

/-- The external collaborators consumed by the block tree, abstracted as
pure functions over an opaque sealed-state type `S`: header projection
and hashing, the partial encoding and its inverse (the `novasmt` forest
handle is folded into `pdecode`), the proposer action, and the external
validator `SealedState::apply_block`, which the spec treats as "a pure,
externally-provided validator that returns the next sealed state or an
error" (`StateError` abstracted to `Nat`). -/
structure BlkOps (S : Type) where
  headerOf : S → Header
  hashHeader : Header → Hash
  pencode : S → List Nat
  pdecode : List Nat → S
  proposer_action : S → Option Nat
  apply_blk : S → Block → Except Nat S

/-- The block tree's state: the ordered key-value backend plus the
in-memory sealed-state cache (`DashMap<HashVal, SealedState>`, modelled
as an ordered association list keyed by hash). -/
structure BlockTree (S : Type) where
  backend : List (Key × Val)
  cache : List (Hash × S)
deriving DecidableEq

/-- A fresh tree over an empty backend (`BlockTree::new`; the initial
tip cleanup is a no-op on an empty backend). -/
def emptyTree (S : Type) : BlockTree S := ⟨[], []⟩

/-- `InternalValue::from_state`. -/
def InternalValue.from_state {S : Type} (ops : BlkOps S) (state : S)
    (action : Option Nat) (metadata : List Nat) : InternalValue :=
  { header := ops.headerOf state
    pstate := ops.pencode state
    action := action
    next := []
    metadata := metadata }

/-- `InternalValue::to_state`: cache-assisted materialization of the
sealed state (cache hit on the record's header hash, else reconstruct
from the partial encoding). -/
def InternalValue.to_state {S : Type} (ops : BlkOps S) (v : InternalValue)
    (cache : List (Hash × S)) : S :=
  match alGet cache (ops.hashHeader v.header) with
  | some s => s
  | none => ops.pdecode v.pstate

/-! ### `Inner`: fail-safe basic operations -/

def internal_insert {S : Type} (t : BlockTree S) (blkhash : Hash) (height : Nat)
    (value : InternalValue) : BlockTree S :=
  { t with backend := alInsert keyLtB (main_key blkhash height) (Val.rcd value) t.backend }

def index_insert {S : Type} (t : BlockTree S) (blkhash : Hash) (height : Nat) : BlockTree S :=
  { t with backend := alInsert keyLtB (index_key blkhash) (Val.ht height) t.backend }

def tip_insert {S : Type} (t : BlockTree S) (blkhash : Hash) (height : Nat) : BlockTree S :=
  { t with backend := alInsert keyLtB (tip_key blkhash) (Val.ht height) t.backend }

def internal_get {S : Type} (t : BlockTree S) (blkhash : Hash) (height : Nat) :
    Option InternalValue :=
  match alGet t.backend (main_key blkhash height) with
  | some (Val.rcd v) => some v
  | _ => none

def internal_remove {S : Type} (t : BlockTree S) (blkhash : Hash) (height : Nat) : BlockTree S :=
  { t with backend := alRemove (main_key blkhash height) t.backend }

def index_get {S : Type} (t : BlockTree S) (blkhash : Hash) : Option Nat :=
  match alGet t.backend (index_key blkhash) with
  | some (Val.ht h) => some h
  | _ => none

def index_remove {S : Type} (t : BlockTree S) (blkhash : Hash) : BlockTree S :=
  { t with backend := alRemove (index_key blkhash) t.backend }

def tip_remove {S : Type} (t : BlockTree S) (blkhash : Hash) : BlockTree S :=
  { t with backend := alRemove (tip_key blkhash) t.backend }

def cache_insert {S : Type} (t : BlockTree S) (blkhash : Hash) (state : S) : BlockTree S :=
  { t with cache := alInsert natLtB blkhash state t.cache }

def cache_remove {S : Type} (t : BlockTree S) (blkhash : Hash) : BlockTree S :=
  { t with cache := alRemove blkhash t.cache }

/-- Inclusive lexicographic range scan over the backend keys
(`DbBackend::key_range`); the backend is kept ordered, so the filtered
keys come back in ascending order. -/
def key_range {S : Type} (t : BlockTree S) (lo hi : Key) : List Key :=
  (t.backend.filter (fun kv => (keyLtB lo kv.1 || decide (lo = kv.1)) &&
    (keyLtB kv.1 hi || decide (kv.1 = hi)))).map (fun kv => kv.1)

/-- `Inner::all_tips`: one range scan over the tips table; each key's
trailing 32 bytes are the tip hash. -/
def all_tips {S : Type} (t : BlockTree S) : List Hash :=
  (key_range t (tip_key 0) (tip_key HMAX)).map (fun k => k.2)

/-- `Inner::get_block`. -/
def get_block {S : Type} (t : BlockTree S) (blkhash : Hash) (height : Option Nat) :
    Option InternalValue :=
  match height with
  | some h => internal_get t blkhash h
  | none =>
    match index_get t blkhash with
    | some h => internal_get t blkhash h
    | none => none

/-- `Inner::insert_block` (the early-return for an already-present block
is commented out in the source, so there is no presence check). -/
def insert_block {S : Type} (ops : BlkOps S) (t : BlockTree S) (state : S)
    (init_metadata : List Nat) : BlockTree S :=
  let action := ops.proposer_action state
  let header := ops.headerOf state
  let blkhash := ops.hashHeader header
  let t1 := internal_insert t blkhash header.height
    (InternalValue.from_state ops state action init_metadata)
  let t2 :=
    match get_block t1 header.previous (some (header.height - 1)) with
    | some parent =>
      internal_insert t1 header.previous parent.header.height
        { parent with next := setInsert blkhash parent.next }
    | none => t1
  let t3 := index_insert t2 blkhash header.height
  let t4 := tip_insert t3 blkhash header.height
  let t5 := tip_remove t4 header.previous
  cache_insert t5 blkhash state

/-- `Inner::remove_orphan(blkhash, Some(height))`: `none` models the
panic on a nonexistent orphan. -/
def remove_orphan {S : Type} (t : BlockTree S) (blkhash : Hash) (height : Nat) :
    Option (BlockTree S) :=
  match get_block t blkhash (some height) with
  | none => none
  | some _current =>
    some (cache_remove (internal_remove (index_remove (tip_remove t blkhash) blkhash)
      blkhash _current.header.height) blkhash)

/-- Outcome of an operation that can panic partway: `panicAt` carries
the tree as already mutated at the moment of the panic. -/
inductive RcOut (S : Type) where
  | ok (t : BlockTree S)
  | panicAt (t : BlockTree S)
deriving DecidableEq

/-- `Inner::remove_childless(blkhash, None)`: the tip's entry is removed,
a tips entry for its parent is posted, the index entry is removed, and
only then is the parent record fetched with `.unwrap()` — which panics if
the parent has no main record. -/
def remove_childless {S : Type} (t : BlockTree S) (blkhash : Hash) : RcOut S :=
  match get_block t blkhash none with
  | none => RcOut.panicAt t
  | some current =>
    let t1 := tip_remove t blkhash
    let t2 := tip_insert t1 current.header.previous (current.header.height - 1)
    let t3 := index_remove t2 blkhash
    match internal_get t3 current.header.previous (current.header.height - 1) with
    | none => RcOut.panicAt t3
    | some parent =>
      let t4 := internal_insert t3 current.header.previous parent.header.height
        { parent with next := setErase blkhash parent.next }
      let t5 := internal_remove t4 blkhash current.header.height
      RcOut.ok (cache_remove t5 blkhash)

/-! ### `BlockTree` -/

/-- Errors returned when applying a block (`ApplyBlockErr`).  The
`HeaderMismatch` variant is declared in the source. -/
inductive ApplyBlockErr where
  | ParentNotFound (h : Hash)
  | CannotValidate (e : Nat)
  | HeaderMismatch
deriving DecidableEq, Repr

/-- Outcome of `apply_block` on a `&mut` tree: success or an error value
carries the possibly-mutated tree; `panic` models the `assert_eq!`
failure escaping the call. -/
inductive ApplyResult (S : Type) where
  | ok (t : BlockTree S)
  | err (e : ApplyBlockErr) (t : BlockTree S)
  | panic
deriving DecidableEq

/-- `BlockTree::get_cursor`: a cursor is its cloned record. -/
def get_cursor {S : Type} (t : BlockTree S) (blkhash : Hash) : Option InternalValue :=
  get_block t blkhash none

/-- `BlockTree::get_tips`: tip keys whose record is missing are silently
dropped (`filter_map`). -/
def get_tips {S : Type} (t : BlockTree S) : List InternalValue :=
  (all_tips t).filterMap (fun h => get_cursor t h)

/-- `BlockTree::apply_block`. -/
def apply_block {S : Type} (ops : BlkOps S) (t : BlockTree S) (block : Block)
    (init_metadata : List Nat) : ApplyResult S :=
  match get_block t block.header.previous (some (block.header.height - 1)) with
  | none => ApplyResult.err (ApplyBlockErr.ParentNotFound block.header.previous) t
  | some previous =>
    let prev_state := InternalValue.to_state ops previous t.cache
    match ops.apply_blk prev_state block with
    | Except.error e => ApplyResult.err (ApplyBlockErr.CannotValidate e) t
    | Except.ok next_state =>
      if ops.headerOf next_state = block.header then
        ApplyResult.ok (insert_block ops t next_state init_metadata)
      else ApplyResult.panic

/-- The cursor walk `while let Some(parent) = v.parent()`, made total
with fuel: one step follows `header.previous` through the index. -/
def rootFrom {S : Type} (t : BlockTree S) : Nat → InternalValue → InternalValue
  | 0, v => v
  | fuel + 1, v =>
    match get_cursor t v.header.previous with
    | some p => rootFrom t fuel p
    | none => v

/-- The descendant-collecting stack walk of `set_genesis` (children with
no record would panic the source's cursor; such trees are outside every
theorem here, and the walk skips them). -/
def descend {S : Type} (ops : BlkOps S) (t : BlockTree S) :
    Nat → List InternalValue → List Hash → List Hash
  | 0, _, acc => acc
  | _ + 1, [], acc => acc
  | fuel + 1, top :: rest, acc =>
    descend ops t fuel (top.next.filterMap (fun h => get_cursor t h) ++ rest)
      (setInsert (ops.hashHeader top.header) acc)

/-- The damned-collecting stack walk of `set_genesis`: everything
reachable from the old genesis that is not a descendant of the asserted
one; headers are collected into a duplicate-free list (`HashSet<Header>`). -/
def damned {S : Type} (ops : BlkOps S) (t : BlockTree S) (descendants : List Hash) :
    Nat → List InternalValue → List Header → List Header
  | 0, _, acc => acc
  | _ + 1, [], acc => acc
  | fuel + 1, top :: rest, acc =>
    if ops.hashHeader top.header ∈ descendants then
      damned ops t descendants fuel rest acc
    else
      damned ops t descendants fuel
        (top.next.filterMap (fun h => get_cursor t h) ++ rest)
        (if top.header ∈ acc then acc else acc ++ [top.header])

/-- Stable insertion sort by height (`sort_unstable_by_key(|v| v.height)`;
the source's order among equal heights is unspecified, and no theorem
below depends on it). -/
def insertByHeight (h : Header) : List Header → List Header
  | [] => [h]
  | x :: xs => if h.height < x.height then h :: x :: xs else x :: insertByHeight h xs

def sortByHeight : List Header → List Header
  | [] => []
  | x :: xs => insertByHeight x (sortByHeight xs)

/-- The removal loop at the end of `set_genesis`; a panic inside
`remove_orphan` aborts the call (`none`). -/
def set_genesis_go {S : Type} (ops : BlkOps S) :
    BlockTree S → List Header → Option (BlockTree S)
  | t, [] => some t
  | t, hdr :: rest =>
    match remove_orphan t (ops.hashHeader hdr) hdr.height with
    | none => none
    | some t2 => set_genesis_go ops t2 rest

/-- `BlockTree::set_genesis`: insert the genesis if absent, find the old
genesis by walking up from the first tip, collect the descendants of the
asserted genesis and the damned set, and remove the damned records in
ascending height order.  `none` models the panics (`expect` on the
just-set genesis, `expect` inside `remove_orphan`). -/
def set_genesis {S : Type} (ops : BlkOps S) (t : BlockTree S) (state : S)
    (init_metadata : List Nat) : Option (BlockTree S) :=
  let state_hash := ops.hashHeader (ops.headerOf state)
  let t1 := if (get_cursor t state_hash).isNone
    then insert_block ops t state init_metadata else t
  let old_genesis := (get_tips t1).head?.map
    (fun c => rootFrom t1 (t1.backend.length + 1) c)
  match get_cursor t1 state_hash with
  | none => none
  | some groot =>
    let descendants :=
      descend ops t1 ((t1.backend.length + 1) * (t1.backend.length + 1)) [groot] []
    let to_delete :=
      match old_genesis with
      | none => []
      | some og =>
        if ops.hashHeader og.header ≠ state_hash then
          sortByHeight (damned ops t1 descendants
            ((t1.backend.length + 1) * (t1.backend.length + 1)) [og] [])
        else []
    set_genesis_go ops t1 to_delete

/-- The removal loop of `delete_tips`; a panic short-circuits. -/
def delete_tips_go {S : Type} : BlockTree S → List Hash → RcOut S
  | t, [] => RcOut.ok t
  | t, h :: rest =>
    match remove_childless t h with
    | RcOut.ok t2 => delete_tips_go t2 rest
    | RcOut.panicAt t2 => RcOut.panicAt t2

/-- `BlockTree::delete_tips`: collect the hashes of all current tips,
then remove each through the childless path. -/
def delete_tips {S : Type} (ops : BlkOps S) (t : BlockTree S) : RcOut S :=
  delete_tips_go t ((get_tips t).map (fun v => ops.hashHeader v.header))

/-- `CursorMut::set_metadata`: replace the metadata of the cursor's
cloned record and write it back through the main table under the
record's own header hash and height. -/
def set_metadata {S : Type} (ops : BlkOps S) (t : BlockTree S) (v : InternalValue)
    (metadata : List Nat) : BlockTree S :=
  internal_insert t (ops.hashHeader v.header) v.header.height
    { v with metadata := metadata }

/-! ## Mempool (`src/src/storage/mempool.rs`) -/

/-- `const WEIGHT_LIMIT: u128 = 10_000_000`. -/
def WEIGHT_LIMIT : Nat := 10000000

/-- External state-transition collaborators of the mempool, over opaque
unsealed-state `U`, sealed-state `S` and transaction `Tx` types:
`seal(None)`, header height, emptiness, `next_unsealed`, the state
machine `apply_tx` (`&mut self` with a `Result`, modelled as the
mutated state plus an optional `StateError`), the covenant weight
function, and `hash_nosigs`. -/
structure StfOps (U S Tx : Type) where
  sealU : U → S
  heightS : S → Nat
  is_emptyS : S → Bool
  next_unsealed : S → U
  apply_tx : U → Tx → U × Option Nat
  weight : Tx → Nat
  hash_nosigs : Tx → Nat

/-- The mempool: provisional unsealed state, last-rebase snapshot, the
set of transaction hashes already folded in (`HashSet<TxHash>`, modelled
as an ordered duplicate-free list), and the accumulated weight. -/
structure Mempool (U : Type) where
  provisional_state : U
  last_rebase : U
  txx_in_state : List Nat
  next_weight : Nat
deriving DecidableEq

/-- Errors surfaced by `Mempool::apply_transaction`: the mempool-full
`anyhow` error, `StateError::DuplicateTx`, and a propagated state error. -/
inductive MempoolError where
  | full
  | duplicateTx
  | stateError (e : Nat)
deriving DecidableEq, Repr

/-- `Mempool::new`. -/
def Mempool.new {U : Type} (state : U) : Mempool U :=
  { provisional_state := state
    last_rebase := state
    txx_in_state := []
    next_weight := 0 }

/-- `Mempool::to_state`. -/
def Mempool.to_state {U : Type} (mp : Mempool U) : U := mp.provisional_state

/-- `Mempool::apply_transaction`.  The weight check comes first; the
hash is inserted before the state machine runs; the weight is added only
on success (reduced modulo `2^128`, the `u128` width). -/
def Mempool.apply_transaction {U S Tx : Type} (ops : StfOps U S Tx)
    (mp : Mempool U) (tx : Tx) : Except MempoolError Unit × Mempool U :=
  if mp.next_weight < WEIGHT_LIMIT then
    if ops.hash_nosigs tx ∈ mp.txx_in_state then
      (Except.error MempoolError.duplicateTx, mp)
    else
      let txx := setInsert (ops.hash_nosigs tx) mp.txx_in_state
      let r := ops.apply_tx mp.provisional_state tx
      match r.2 with
      | some e =>
        (Except.error (MempoolError.stateError e),
          { mp with provisional_state := r.1, txx_in_state := txx })
      | none =>
        (Except.ok (),
          { mp with
            provisional_state := r.1
            txx_in_state := txx
            next_weight := (mp.next_weight + ops.weight tx) % 2 ^ 128 })
  else (Except.error MempoolError.full, mp)

/-- `Mempool::rebase`: seal the provisional state, rebase only onto a
strictly higher confirmed state; `none` models the
`assert!(state.is_empty())` panic. -/
def Mempool.rebase {U S Tx : Type} (ops : StfOps U S Tx) (mp : Mempool U)
    (state : S) : Option (Mempool U) :=
  let sealed_provisional_state := ops.sealU mp.provisional_state
  if ops.heightS sealed_provisional_state < ops.heightS state then
    if ops.is_emptyS state then
      some { provisional_state := ops.next_unsealed state
             last_rebase := ops.next_unsealed state
             txx_in_state := []
             next_weight := 0 }
    else none
  else some mp

/-- `Mempool::lookup_recent_tx`: unconditionally not found. -/
def Mempool.lookup_recent_tx {U Tx : Type} (_mp : Mempool U) (_hash : Nat) :
    Option Tx := none

/-! ## Concrete mempool collaborators (for witnesses and scenarios) -/

/-- Unsealed and sealed states are counters, transactions are their own
hashes, every transaction weighs `1_000_000_001` and always applies
cleanly (the weight function of the spec's scenario 5). -/
def mpOpsW : StfOps Nat Nat Nat :=
  { sealU := fun u => u
    heightS := fun s => s
    is_emptyS := fun _ => true
    next_unsealed := fun s => s + 1
    apply_tx := fun u _ => (u + 1, none)
    weight := fun _ => 1000000001
    hash_nosigs := fun tx => tx }

/-- Like `mpOpsW` but the state machine rejects every transaction with
error `42`, leaving the state unchanged. -/
def mpOpsF : StfOps Nat Nat Nat :=
  { mpOpsW with apply_tx := fun u _ => (u, some 42) }

/-- Submit a list of transactions in order, collecting each outcome. -/
def mpSubmit (mp : Mempool Nat) : List Nat → List (Except MempoolError Unit) × Mempool Nat
  | [] => ([], mp)
  | tx :: rest =>
    let r := Mempool.apply_transaction mpOpsW mp tx
    let rr := mpSubmit r.2 rest
    (r.1 :: rr.1, rr.2)

/-! ## Claim C3 (mempool weight cap) -/

/-- C3, counterexample.  The claim predicts that with per-transaction
weight `1_000_000_001` the first 10 submissions succeed.  In the code
`WEIGHT_LIMIT` is `10_000_000`, so already the second submission fails
with the mempool-full error: after one accepted transaction
`next_weight = 1_000_000_001 ≥ 10_000_000`. -/
theorem mempool_weight_cap_counterexample :
    (Mempool.apply_transaction mpOpsW (Mempool.new 0) 1).1 = Except.ok () ∧
    (Mempool.apply_transaction mpOpsW
      (Mempool.apply_transaction mpOpsW (Mempool.new 0) 1).2 2).1 =
      Except.error MempoolError.full := by
  constructor
  · rfl
  · rfl

/-- C3, amended.  Submitting 11 distinct transactions of weight
`1_000_000_001` to an empty mempool: the first succeeds and submissions
2 through 11 fail with the mempool-full error (`WEIGHT_LIMIT` is
`10_000_000`); resubmitting transaction #1 afterwards also fails with
the mempool-full error — the weight check precedes the duplicate check,
so `DuplicateTx` is not reached. -/
theorem mempool_weight_cap_trace :
    (mpSubmit (Mempool.new 0) [1, 2, 3, 4, 5, 6, 7, 8, 9, 10, 11]).1 =
      Except.ok () :: List.replicate 10 (Except.error MempoolError.full) ∧
    (Mempool.apply_transaction mpOpsW
      (mpSubmit (Mempool.new 0) [1, 2, 3, 4, 5, 6, 7, 8, 9, 10, 11]).2 1).1 =
      Except.error MempoolError.full := by
  constructor
  · rfl
  · rfl

/-! ## Claim C5 (rebase) -/

/-- C5.  `rebase(new_confirmed)`: when the confirmed header height
strictly exceeds the sealed provisional height and the confirmed state
is empty, the provisional state and the last-rebase snapshot both become
`new_confirmed.next_unsealed()`, the transaction-hash set is cleared and
the weight zeroed; when the height is not strictly greater, the mempool
is completely unchanged. -/
theorem rebase_spec {U S Tx : Type} (ops : StfOps U S Tx) (mp : Mempool U) (s : S) :
    (ops.heightS (ops.sealU mp.provisional_state) < ops.heightS s →
      ops.is_emptyS s = true →
      Mempool.rebase ops mp s = some
        { provisional_state := ops.next_unsealed s
          last_rebase := ops.next_unsealed s
          txx_in_state := []
          next_weight := 0 }) ∧
    (¬ ops.heightS (ops.sealU mp.provisional_state) < ops.heightS s →
      Mempool.rebase ops mp s = some mp) := by
  constructor
  · intro h1 h2
    simp [Mempool.rebase, h1, h2]
  · intro h1
    simp [Mempool.rebase, h1]

/-- C5, witness: both branches of `rebase_spec` at concrete mempools. -/
theorem rebase_spec_witness :
    Mempool.rebase mpOpsW ⟨0, 0, [5], 7⟩ 3 = some ⟨4, 4, [], 0⟩ ∧
    Mempool.rebase mpOpsW ⟨2, 2, [5], 7⟩ 1 = some ⟨2, 2, [5], 7⟩ :=
  ⟨(rebase_spec mpOpsW ⟨0, 0, [5], 7⟩ 3).1 (by decide) (by decide),
   (rebase_spec mpOpsW ⟨2, 2, [5], 7⟩ 1).2 (by decide)⟩

/-! ## Claim C7 (failed transaction leaves hash marked, weight unchanged) -/

/-- C7.  If the mempool is under the weight cap, the transaction's hash
is new, and the state machine rejects the transaction, then
`apply_transaction` returns that state error, the hash is nonetheless
present in `txx_in_state` afterwards, and `next_weight` is unchanged
(the provisional state is whatever the `&mut` state machine left). -/
theorem apply_transaction_failure_frame {U S Tx : Type} (ops : StfOps U S Tx)
    (mp : Mempool U) (tx : Tx) (e : Nat)
    (hw : mp.next_weight < WEIGHT_LIMIT)
    (hdup : ops.hash_nosigs tx ∉ mp.txx_in_state)
    (herr : (ops.apply_tx mp.provisional_state tx).2 = some e) :
    Mempool.apply_transaction ops mp tx =
      (Except.error (MempoolError.stateError e),
        { mp with
          provisional_state := (ops.apply_tx mp.provisional_state tx).1
          txx_in_state := setInsert (ops.hash_nosigs tx) mp.txx_in_state }) ∧
    ops.hash_nosigs tx ∈ (Mempool.apply_transaction ops mp tx).2.txx_in_state ∧
    (Mempool.apply_transaction ops mp tx).2.next_weight = mp.next_weight := by
  have h1 : Mempool.apply_transaction ops mp tx =
      (Except.error (MempoolError.stateError e),
        { mp with
          provisional_state := (ops.apply_tx mp.provisional_state tx).1
          txx_in_state := setInsert (ops.hash_nosigs tx) mp.txx_in_state }) := by
    simp only [Mempool.apply_transaction, if_pos hw, if_neg hdup, herr]
  refine ⟨h1, ?_, ?_⟩
  · rw [h1]
    exact mem_setInsert_self _ _
  · rw [h1]

/-- C7, witness: a rejected transaction against concrete collaborators. -/
theorem apply_transaction_failure_frame_witness :
    Mempool.apply_transaction mpOpsF (Mempool.new 0) 7 =
      (Except.error (MempoolError.stateError 42), ⟨0, 0, [7], 0⟩) ∧
    (7 : Nat) ∈ (Mempool.apply_transaction mpOpsF (Mempool.new 0) 7).2.txx_in_state ∧
    (Mempool.apply_transaction mpOpsF (Mempool.new 0) 7).2.next_weight =
      (Mempool.new 0 : Mempool Nat).next_weight :=
  apply_transaction_failure_frame mpOpsF (Mempool.new 0) 7 42
    (by decide) (by decide) (by decide)

/-! ## Concrete block-tree collaborators (for witnesses and scenarios) -/

/-- Sealed states are their own headers; the hash of a header is its
opaque `rest` field (so hashes are freely choosable); the validator
accepts every block and returns a state with exactly the block's
header. -/
def bOpsW : BlkOps Header :=
  { headerOf := fun s => s
    hashHeader := fun hd => hd.rest
    pencode := fun s => [s.height, s.previous, s.rest]
    pdecode := fun l => ⟨l.headD 0, (l.drop 1).headD 0, (l.drop 2).headD 0⟩
    proposer_action := fun _ => none
    apply_blk := fun _ b => Except.ok b.header }

/-- Like `bOpsW` but the validator always returns a state whose header
is the fixed header `⟨5, 5, 5⟩`, regardless of the block. -/
def bOpsBad : BlkOps Header :=
  { bOpsW with apply_blk := fun _ _ => Except.ok ⟨5, 5, 5⟩ }

/-- A genesis header at height 1 with hash 10. -/
def gHdr : Header := ⟨1, 0, 10⟩

/-- The genesis record. -/
def gRec : InternalValue := ⟨gHdr, [1, 0, 10], none, [], []⟩

/-- A tree holding exactly the genesis: its main record, tips entry,
index entry, and cached state. -/
def gTree : BlockTree Header :=
  ⟨[((1, 10), Val.rcd gRec), ((TIPH, 10), Val.ht 1), ((IDXH, 10), Val.ht 1)],
   [(10, gHdr)]⟩

/-- A block at height 2 on top of the genesis, hash 11. -/
def bA : Block := ⟨⟨2, 10, 11⟩, 0⟩

/-! ## Claim C6 (missing parent) -/

/-- The panic of the source's `internal_get` (tree.rs:457-462): the raw
bytes at the main key are fetched first and only then deserialized with
`.expect("cannot deserialize internal value")`.  When the key holds a
stored height — a tips or index entry, whose serialization is not a
valid record — the source panics; the model's `internal_get` returns
`none` there, so this predicate marks that collapsed panic explicitly. -/
def internal_get_panics {S : Type} (t : BlockTree S) (blkhash : Hash)
    (height : Nat) : Bool :=
  match alGet t.backend (main_key blkhash height) with
  | some (Val.ht _) => true
  | _ => false

/-- A block at height `u64::MAX` whose parent pointer is the genesis
hash 10: after the saturating subtraction, its parent main key
`(previous, height - 1)` is byte-identical to the tips-table key of
hash 10. -/
def c6b : Block := ⟨⟨2 ^ 64 - 1, 10, 99⟩, 0⟩

/-- C6, counterexample.  On the genesis tree and the block `c6b`, no
main record exists at key `(previous, height - 1)` — that key is
`tip_key 10`, holding a stored height, not a record — so the claim's
hypothesis is met; but the source does not return `ParentNotFound` with
the tree unchanged: its parent lookup reads the tips entry at the
colliding key and panics deserializing it as a record
(`internal_get_panics`). -/
theorem parent_not_found_counterexample :
    internal_get gTree c6b.header.previous (c6b.header.height - 1) = none ∧
    main_key c6b.header.previous (c6b.header.height - 1) = tip_key 10 ∧
    alGet gTree.backend (tip_key 10) = some (Val.ht 1) ∧
    internal_get_panics gTree c6b.header.previous (c6b.header.height - 1) = true := by
  refine ⟨by decide, by decide, by decide, by decide⟩

/-- C6, amended.  If the backend holds no entry at all at key
`(header.previous, header.height - 1)` (`saturating_sub`, hence `Nat`
subtraction) — in particular whenever `height - 1` is a real height
below the tips sentinel and the parent record is absent — then
`apply_block` fails with `ParentNotFound(header.previous)`, returns the
tree unchanged (the error path performs no writes to the main table,
index, tips or cache), and the raw lookup's deserialize panic is not
reached.  The unrestricted claim fails when `height = u64::MAX` and
`previous` is a current tip: the parent key then collides with the tips
row and the source panics instead — see the counterexample. -/
theorem parent_not_found_unchanged {S : Type} (ops : BlkOps S) (t : BlockTree S)
    (b : Block) (m : List Nat)
    (h : alGet t.backend (main_key b.header.previous (b.header.height - 1)) = none) :
    apply_block ops t b m =
      ApplyResult.err (ApplyBlockErr.ParentNotFound b.header.previous) t ∧
    internal_get_panics t b.header.previous (b.header.height - 1) = false := by
  have hg : get_block t b.header.previous (some (b.header.height - 1)) = none := by
    simp [get_block, internal_get, h]
  constructor
  · simp [apply_block, hg]
  · simp [internal_get_panics, h]

/-- C6, witness: a block whose parent hash 99 has no entry of any kind
at the parent key. -/
theorem parent_not_found_unchanged_witness :
    apply_block bOpsW gTree ⟨⟨2, 99, 11⟩, 0⟩ [] =
      ApplyResult.err (ApplyBlockErr.ParentNotFound 99) gTree ∧
    internal_get_panics gTree (99 : Hash) 1 = false :=
  parent_not_found_unchanged bOpsW gTree ⟨⟨2, 99, 11⟩, 0⟩ [] (by decide)

/-! ## Claim C2 (header mismatch) -/

/-- C2, counterexample.  At a concrete input where the parent record
exists and the external validator succeeds but returns a header
different from the block's, `apply_block` does not return
`HeaderMismatch`: the `assert_eq!` fails, i.e. a panic escapes
(`ApplyBlockErr::HeaderMismatch` is never constructed in the source). -/
theorem header_mismatch_counterexample :
    get_block gTree (10 : Hash) (some 1) = some gRec ∧
    bOpsBad.apply_blk (InternalValue.to_state bOpsBad gRec gTree.cache) bA =
      Except.ok ⟨5, 5, 5⟩ ∧
    bOpsBad.headerOf ⟨5, 5, 5⟩ ≠ bA.header ∧
    apply_block bOpsBad gTree bA [] = ApplyResult.panic := by
  refine ⟨rfl, rfl, by decide, rfl⟩

/-- C2, amended.  Whenever the parent record exists and the validator
succeeds with a header that differs from the block's header,
`apply_block` panics (the `assert_eq!` defense) instead of returning an
error; in particular it never returns `HeaderMismatch`. -/
theorem header_mismatch_panics {S : Type} (ops : BlkOps S) (t : BlockTree S)
    (b : Block) (m : List Nat) (p : InternalValue) (s2 : S)
    (hpar : get_block t b.header.previous (some (b.header.height - 1)) = some p)
    (hval : ops.apply_blk (InternalValue.to_state ops p t.cache) b = Except.ok s2)
    (hne : ops.headerOf s2 ≠ b.header) :
    apply_block ops t b m = ApplyResult.panic := by
  simp [apply_block, hpar, hval, hne]

/-- C2, witness. -/
theorem header_mismatch_panics_witness :
    apply_block bOpsBad gTree bA [] = ApplyResult.panic :=
  header_mismatch_panics bOpsBad gTree bA [] gRec ⟨5, 5, 5⟩
    rfl rfl (by decide)

/-! ## Claim C9 (set_metadata frame) -/

/-- C9.  For a record `v` stored in the main table under its own header
hash and height, `set_metadata` replaces exactly that main entry with
the same record save for the metadata field (header, partial state,
proposer action and children set unchanged); every other backend key —
all other main records, all index entries, all tips entries — reads the
same, and the cache is untouched. -/
theorem set_metadata_frame {S : Type} (ops : BlkOps S) (t : BlockTree S)
    (v : InternalValue) (m : List Nat)
    (hv : alGet t.backend (main_key (ops.hashHeader v.header) v.header.height) =
      some (Val.rcd v)) :
    alGet t.backend (main_key (ops.hashHeader v.header) v.header.height) =
      some (Val.rcd v) ∧
    alGet (set_metadata ops t v m).backend
        (main_key (ops.hashHeader v.header) v.header.height) =
      some (Val.rcd { v with metadata := m }) ∧
    (∀ k : Key, k ≠ main_key (ops.hashHeader v.header) v.header.height →
      alGet (set_metadata ops t v m).backend k = alGet t.backend k) ∧
    (set_metadata ops t v m).cache = t.cache := by
  refine ⟨hv, ?_, ?_, rfl⟩
  · simp [set_metadata, internal_insert, alGet_insert]
  · intro k hk
    simp [set_metadata, internal_insert, alGet_insert, hk]

/-- C9, witness: rewrite the genesis record's metadata to `[7]`; the
tips entry (an arbitrary other key) is untouched, and so is the cache. -/
theorem set_metadata_frame_witness :
    alGet gTree.backend (main_key (bOpsW.hashHeader gRec.header) gRec.header.height) =
      some (Val.rcd gRec) ∧
    alGet (set_metadata bOpsW gTree gRec [7]).backend
        (main_key (bOpsW.hashHeader gRec.header) gRec.header.height) =
      some (Val.rcd { gRec with metadata := [7] }) ∧
    alGet (set_metadata bOpsW gTree gRec [7]).backend (TIPH, 10) =
      alGet gTree.backend (TIPH, 10) ∧
    (set_metadata bOpsW gTree gRec [7]).cache = gTree.cache := by
  have h := set_metadata_frame bOpsW gTree gRec [7] (by decide)
  exact ⟨h.1, h.2.1, h.2.2.1 (TIPH, 10) (by decide), h.2.2.2⟩

/-! ## Claim C10 (delete_tips is not total) -/

/-- C10.  If the tree's only tip is a record `v` (filed under hash `g`)
whose parent has no main record — in particular a tree whose only record
is the genesis, itself a tip — then `delete_tips` panics inside
`remove_childless` at the parent lookup (`unwrap`), and the tree at the
moment of the panic has the tip's tips entry removed, the tip's index
entry removed, and a tips entry inserted for the nonexistent parent
(while the tip's main record is still present).  The `1 ≤ height`
hypothesis keeps the `BlockHeight` subtraction `height - 1` within the
Nat model; `height - 1 < TIPH` keeps the parent's main key off the
sentinel rows. -/
theorem delete_tips_panics_on_missing_parent {S : Type} (ops : BlkOps S)
    (t : BlockTree S) (v : InternalValue) (g : Hash)
    (htips : all_tips t = [g])
    (hcur : get_block t g none = some v)
    (hhash : ops.hashHeader v.header = g)
    (_hht1 : 1 ≤ v.header.height)
    (hht2 : v.header.height - 1 < TIPH)
    (hpar : internal_get t v.header.previous (v.header.height - 1) = none) :
    delete_tips ops t = RcOut.panicAt
      (index_remove (tip_insert (tip_remove t g) v.header.previous
        (v.header.height - 1)) g) := by
  have hgt : get_tips t = [v] := by
    simp [get_tips, htips, get_cursor, hcur]
  have hne1 : v.header.height - 1 ≠ IDXH := by
    have h2 : TIPH < IDXH := by decide
    omega
  have hne2 : v.header.height - 1 ≠ TIPH := by omega
  have hk : internal_get (index_remove (tip_insert (tip_remove t g)
      v.header.previous (v.header.height - 1)) g)
      v.header.previous (v.header.height - 1) = none := by
    simp only [internal_get, index_remove, tip_insert, tip_remove,
      main_key, tip_key, index_key, alGet_remove, alGet_insert]
    simp only [internal_get, main_key] at hpar
    simp [Prod.ext_iff, hne1, hne2, hpar]
  unfold delete_tips
  rw [hgt]
  simp only [List.map_cons, List.map_nil, hhash]
  unfold delete_tips_go
  unfold remove_childless
  rw [hcur]
  simp only [hk]

/-- C10, witness: the genesis-only tree; its single tip's parent (hash
0 at height 0) has no record. -/
theorem delete_tips_panics_on_missing_parent_witness :
    delete_tips bOpsW gTree = RcOut.panicAt
      (index_remove (tip_insert (tip_remove gTree 10) gRec.header.previous
        (gRec.header.height - 1)) 10) := by
  have h := delete_tips_panics_on_missing_parent bOpsW gTree gRec 10
    (by decide) (by decide) (by decide) (by decide) (by decide) (by decide)
  exact h

/-! ## Claim C8 (set_genesis idempotence) -/

/-- A two-root forest: two unrelated records `A` (hash 3, parent 99) and
`B` (hash 2, parent 98), both tips, with no genesis yet. -/
def c8T : BlockTree Header :=
  ⟨[((1, 2), Val.rcd ⟨⟨1, 98, 2⟩, [0], none, [], []⟩),
    ((1, 3), Val.rcd ⟨⟨1, 99, 3⟩, [0], none, [], []⟩),
    ((TIPH, 2), Val.ht 1), ((TIPH, 3), Val.ht 1),
    ((IDXH, 2), Val.ht 1), ((IDXH, 3), Val.ht 1)],
   []⟩

/-- C8, counterexample.  `set_genesis` walks up only from the *first*
tip to find the old genesis.  On the two-root forest `c8T`, asserting a
fresh genesis (hash 4) prunes only the tree of the first tip (`B`); a
second identical call then finds `A`'s root as "old genesis" and prunes
`A` as well — the two calls do not compose idempotently. -/
theorem set_genesis_not_idempotent :
    ((set_genesis bOpsW c8T ⟨1, 97, 4⟩ []).bind
      (fun u => set_genesis bOpsW u ⟨1, 97, 4⟩ [])) ≠
      set_genesis bOpsW c8T ⟨1, 97, 4⟩ [] := by
  decide

/-- C8, amended.  `set_genesis(g)` is a no-op (hence the second of two
consecutive identical calls is) whenever `g`'s record is already present
and the upward walk from the tree's first tip ends at `g` — in
particular whenever the tree is single-rooted with root `g`, which is
what the first call produces on any single-rooted tree.  On multi-root
forests (reachable, e.g., by asserting unrelated geneses whose hashes
order suitably) idempotence fails: the second call can prune records the
first call left behind. -/
theorem set_genesis_idempotent_rooted {S : Type} (ops : BlkOps S)
    (t : BlockTree S) (state : S) (m : List Nat)
    (hcur : (get_cursor t (ops.hashHeader (ops.headerOf state))).isSome)
    (hroot : ∀ c, (get_tips t).head? = some c →
      ops.hashHeader ((rootFrom t (t.backend.length + 1) c).header) =
        ops.hashHeader (ops.headerOf state)) :
    set_genesis ops t state m = some t := by
  obtain ⟨g0, hg0⟩ := Option.isSome_iff_exists.1 hcur
  simp only [set_genesis, hg0, Option.isNone_some, Bool.false_eq_true, if_false]
  cases hh : (get_tips t).head? with
  | none => simp [hh, set_genesis_go]
  | some c =>
    have hr := hroot c hh
    simp [hh, hr, set_genesis_go]

/-- C8, witness: on the genesis-only tree, re-asserting the same genesis
is a no-op. -/
theorem set_genesis_idempotent_rooted_witness :
    set_genesis bOpsW gTree gHdr [] = some gTree :=
  set_genesis_idempotent_rooted bOpsW gTree gHdr []
    (by decide)
    (fun c hc => by
      have h2 : gRec = c := Option.some.inj hc
      subst h2
      decide)

/-! ## Claim C4 (re-applying an already-applied block) -/

theorem keyLtB_irr (a : Key) : keyLtB a a = false := by
  simp [keyLtB]

theorem keyLtB_tr (a b c : Key) (h1 : keyLtB a b = true) (h2 : keyLtB b c = true) :
    keyLtB a c = true := by
  simp only [keyLtB, Bool.or_eq_true, Bool.and_eq_true, decide_eq_true_eq] at h1 h2 ⊢
  omega

theorem natLtB_irr (a : Nat) : natLtB a a = false := by
  simp [natLtB]

theorem natLtB_tr (a b c : Nat) (h1 : natLtB a b = true) (h2 : natLtB b c = true) :
    natLtB a c = true := by
  simp only [natLtB, decide_eq_true_eq] at h1 h2 ⊢
  omega

/-- The tree produced by applying block `bA` to the genesis tree. -/
def c4t1 : BlockTree Header :=
  match apply_block bOpsW gTree bA [] with
  | ApplyResult.ok t => t
  | _ => gTree

/-- C4, counterexample.  The presence early-return in `insert_block` is
commented out, so applying an already-applied block again returns
`Ok(())` — success, not an error — (and, immediately after the first
application, leaves the tree unchanged).  This refutes the claim that
the second call returns an error. -/
theorem reapply_block_counterexample :
    apply_block bOpsW gTree bA [] = ApplyResult.ok c4t1 ∧
    apply_block bOpsW c4t1 bA [] = ApplyResult.ok c4t1 := by
  constructor
  · rfl
  · decide

/-- C4, amended.  Re-applying a just-applied block (same
`init_metadata`, no intervening operation) returns success — not an
error — and is a no-op on the tree's contents.  Hypotheses: the first
application succeeded producing `t1` (with ordered backend and cache);
the parent record sits at height `height - 1` with a hash different from
the block's hash; the block's hash differs from its parent pointer; and
the block's height is below the tips sentinel.  (In general a second
application is *not* a no-op: if the block gained children since, their
record pointers survive but the re-inserted record's child set is reset;
the source only guarantees the immediate-reapplication case stated
here.) -/
theorem reapply_block_noop_ok {S : Type} (ops : BlkOps S) (t t1 : BlockTree S)
    (b : Block) (m : List Nat) (p : InternalValue)
    (happ : apply_block ops t b m = ApplyResult.ok t1)
    (hsort : alSorted keyLtB t1.backend)
    (hsortc : alSorted natLtB t1.cache)
    (hpar : get_block t b.header.previous (some (b.header.height - 1)) = some p)
    (hco : p.header.height = b.header.height - 1)
    (hne : ops.hashHeader p.header ≠ ops.hashHeader b.header)
    (hprev : b.header.previous ≠ ops.hashHeader b.header)
    (hht : b.header.height < TIPH) :
    apply_block ops t1 b m = ApplyResult.ok t1 := by
  -- invert the first application
  simp only [apply_block, hpar] at happ
  rcases hv0 : ops.apply_blk (InternalValue.to_state ops p t.cache) b with e | s2
  case error => simp only [hv0] at happ; cases happ
  case ok =>
  simp only [hv0] at happ
  by_cases hhd : ops.headerOf s2 = b.header
  case neg => rw [if_neg hhd] at happ; cases happ
  case pos =>
  rw [if_pos hhd] at happ
  have ht1 : t1 = insert_block ops t s2 m := (ApplyResult.ok.inj happ).symm
  -- abbreviations
  have hprev2 : ops.hashHeader b.header ≠ b.header.previous := fun hx => hprev hx.symm
  have hhm1 : b.header.height - 1 ≠ TIPH := by omega
  have hhm2 : b.header.height - 1 ≠ IDXH := by
    have hti : TIPH < IDXH := by decide
    omega
  have hhm3 : b.header.height ≠ TIPH := by omega
  have hhm4 : b.header.height ≠ IDXH := by
    have hti : TIPH < IDXH := by decide
    omega
  have hti2 : IDXH ≠ TIPH := by decide
  -- key disequalities
  have d11 : main_key b.header.previous (b.header.height - 1) ≠
      tip_key b.header.previous := by
    simp [main_key, tip_key, Prod.ext_iff, hhm1]
  have d12 : main_key b.header.previous (b.header.height - 1) ≠
      tip_key (ops.hashHeader b.header) := by
    simp [main_key, tip_key, Prod.ext_iff, hhm1]
  have d13 : main_key b.header.previous (b.header.height - 1) ≠
      index_key (ops.hashHeader b.header) := by
    simp [main_key, index_key, Prod.ext_iff, hhm2]
  have d14 : main_key b.header.previous (b.header.height - 1) ≠
      main_key (ops.hashHeader b.header) b.header.height := by
    simp [main_key, Prod.ext_iff]
    intro _
    exact hprev
  have d21 : main_key (ops.hashHeader b.header) b.header.height ≠
      tip_key b.header.previous := by
    simp [main_key, tip_key, Prod.ext_iff, hhm3]
  have d22 : main_key (ops.hashHeader b.header) b.header.height ≠
      tip_key (ops.hashHeader b.header) := by
    simp [main_key, tip_key, Prod.ext_iff, hhm3]
  have d23 : main_key (ops.hashHeader b.header) b.header.height ≠
      index_key (ops.hashHeader b.header) := by
    simp [main_key, index_key, Prod.ext_iff, hhm4]
  have d24 : main_key (ops.hashHeader b.header) b.header.height ≠
      main_key b.header.previous (b.header.height - 1) := by
    simp [main_key, Prod.ext_iff]
    intro _
    exact hprev2
  have d31 : index_key (ops.hashHeader b.header) ≠ tip_key b.header.previous := by
    simp [index_key, tip_key, Prod.ext_iff, hti2]
  have d32 : index_key (ops.hashHeader b.header) ≠ tip_key (ops.hashHeader b.header) := by
    simp [index_key, tip_key, Prod.ext_iff, hti2]
  have d41 : tip_key (ops.hashHeader b.header) ≠ tip_key b.header.previous := by
    simp [tip_key, Prod.ext_iff]
    exact hprev2
  -- the main record of the parent in t
  have hback : alGet t.backend (main_key b.header.previous (b.header.height - 1)) =
      some (Val.rcd p) := by
    simp only [get_block, internal_get] at hpar
    rcases hb2 : alGet t.backend (main_key b.header.previous (b.header.height - 1)) with
      _ | v2
    · rw [hb2] at hpar; cases hpar
    · rw [hb2] at hpar
      cases v2 with
      | rcd r => cases hpar; rfl
      | ht n => cases hpar
  -- parent lookup during the first insert_block
  have hgb1 : get_block (internal_insert t (ops.hashHeader b.header) b.header.height
      (InternalValue.from_state ops s2 (ops.proposer_action s2) m))
      b.header.previous (some (b.header.height - 1)) = some p := by
    simp only [get_block, internal_get, internal_insert, alGet_insert, if_neg d14, hback]
  -- explicit form of t1
  have ht1b : t1.backend =
      alRemove (tip_key b.header.previous)
        (alInsert keyLtB (tip_key (ops.hashHeader b.header)) (Val.ht b.header.height)
          (alInsert keyLtB (index_key (ops.hashHeader b.header)) (Val.ht b.header.height)
            (alInsert keyLtB (main_key b.header.previous (b.header.height - 1))
              (Val.rcd { p with next := setInsert (ops.hashHeader b.header) p.next })
              (alInsert keyLtB (main_key (ops.hashHeader b.header) b.header.height)
                (Val.rcd (InternalValue.from_state ops s2 (ops.proposer_action s2) m))
                t.backend)))) := by
    rw [ht1]
    simp only [insert_block, hhd, hgb1, hco]
    simp only [cache_insert, tip_remove, tip_insert, index_insert, internal_insert]
  have ht1c : t1.cache = alInsert natLtB (ops.hashHeader b.header) s2 t.cache := by
    rw [ht1]
    simp only [insert_block, hhd, hgb1]
    simp only [cache_insert, tip_remove, tip_insert, index_insert, internal_insert]
  -- reads against t1
  have g1 : alGet t1.backend (main_key b.header.previous (b.header.height - 1)) =
      some (Val.rcd { p with next := setInsert (ops.hashHeader b.header) p.next }) := by
    rw [ht1b, alGet_remove, if_neg d11, alGet_insert, if_neg d12, alGet_insert,
      if_neg d13, alGet_insert, if_pos rfl]
  have g2 : alGet t1.backend (main_key (ops.hashHeader b.header) b.header.height) =
      some (Val.rcd (InternalValue.from_state ops s2 (ops.proposer_action s2) m)) := by
    rw [ht1b, alGet_remove, if_neg d21, alGet_insert, if_neg d22, alGet_insert,
      if_neg d23, alGet_insert, if_neg d24, alGet_insert, if_pos rfl]
  have g3 : alGet t1.backend (index_key (ops.hashHeader b.header)) =
      some (Val.ht b.header.height) := by
    rw [ht1b, alGet_remove, if_neg d31, alGet_insert, if_neg d32, alGet_insert, if_pos rfl]
  have g4 : alGet t1.backend (tip_key (ops.hashHeader b.header)) =
      some (Val.ht b.header.height) := by
    rw [ht1b, alGet_remove, if_neg d41, alGet_insert, if_pos rfl]
  have g5 : alGet t1.backend (tip_key b.header.previous) = none := by
    rw [ht1b, alGet_remove, if_pos rfl]
  have g6 : alGet t1.cache (ops.hashHeader b.header) = some s2 := by
    rw [ht1c, alGet_insert, if_pos rfl]
  -- the parent cursor read by the second application
  have hgb2 : get_block t1 b.header.previous (some (b.header.height - 1)) =
      some { p with next := setInsert (ops.hashHeader b.header) p.next } := by
    simp only [get_block, internal_get, g1]
  -- materialization agrees with the first application
  have hts : InternalValue.to_state ops
      { p with next := setInsert (ops.hashHeader b.header) p.next } t1.cache =
      InternalValue.to_state ops p t.cache := by
    simp only [InternalValue.to_state, ht1c, alGet_insert, if_neg hne]
  -- the no-op steps of the second insert_block
  have e1 : internal_insert t1 (ops.hashHeader b.header) b.header.height
      (InternalValue.from_state ops s2 (ops.proposer_action s2) m) = t1 := by
    unfold internal_insert
    rw [alInsert_self keyLtB keyLtB_irr keyLtB_tr hsort g2]
  have hp2i : ({ p with next := setInsert (ops.hashHeader b.header) (setInsert (ops.hashHeader b.header) p.next) } : InternalValue) = { p with next := setInsert (ops.hashHeader b.header) p.next } := by
    rw [setInsert_idem]
  have e2 : internal_insert t1 b.header.previous (b.header.height - 1)
      { p with next := setInsert (ops.hashHeader b.header) p.next } = t1 := by
    unfold internal_insert
    rw [alInsert_self keyLtB keyLtB_irr keyLtB_tr hsort g1]
  have e3 : index_insert t1 (ops.hashHeader b.header) b.header.height = t1 := by
    unfold index_insert
    rw [alInsert_self keyLtB keyLtB_irr keyLtB_tr hsort g3]
  have e4 : tip_insert t1 (ops.hashHeader b.header) b.header.height = t1 := by
    unfold tip_insert
    rw [alInsert_self keyLtB keyLtB_irr keyLtB_tr hsort g4]
  have e5 : tip_remove t1 b.header.previous = t1 := by
    unfold tip_remove
    rw [alRemove_absent g5]
  have e6 : cache_insert t1 (ops.hashHeader b.header) s2 = t1 := by
    unfold cache_insert
    rw [alInsert_self natLtB natLtB_irr natLtB_tr hsortc g6]
  -- assemble the second application
  simp only [apply_block, hgb2, hts, hv0, if_pos hhd]
  congr 1
  simp only [insert_block, hhd, e1, hgb2, hp2i, hco, e2, e3, e4, e5, e6]

/-- C4, witness: the concrete double application of `bA` on the genesis
tree, through `reapply_block_noop_ok`. -/
theorem reapply_block_noop_ok_witness :
    apply_block bOpsW c4t1 bA [] = ApplyResult.ok c4t1 :=
  reapply_block_noop_ok bOpsW gTree c4t1 bA [] gRec
    rfl (by decide) (by decide) (by decide) (by decide) (by decide) (by decide) (by decide)

/-! ## Claim C1 (tip-table invariant) -/

/-- Invariant 3 of the spec: a hash has a tips entry iff a main record
for that hash exists (at some real height, below the sentinels) whose
children set is empty. -/
def tipInvariant {S : Type} (t : BlockTree S) : Prop :=
  ∀ hsh : Hash, (alGet t.backend (tip_key hsh)).isSome ↔
    ∃ ht r, ht < TIPH ∧ alGet t.backend (main_key hsh ht) = some (Val.rcd r) ∧
      r.next = []

/-- Is there a childless main record under the given hash? -/
def hasChildlessRec (l : List (Key × Val)) (hsh : Hash) : Bool :=
  l.any fun kv =>
    match kv.2 with
    | Val.rcd r => decide (kv.1.1 < TIPH) && decide (kv.1.2 = hsh) &&
        decide (r.next = [])
    | Val.ht _ => false

/-- Executable check of `tipInvariant` over the backend's entries. -/
def tipInvB {S : Type} (t : BlockTree S) : Bool :=
  t.backend.all fun kv =>
    (if kv.1.1 = TIPH then hasChildlessRec t.backend kv.1.2 else true) &&
    (match kv.2 with
     | Val.rcd r =>
       if kv.1.1 < TIPH ∧ r.next = [] then (alGet t.backend (tip_key kv.1.2)).isSome
       else true
     | Val.ht _ => true)

/-- Key coherence of a tree: every main entry (below the tips sentinel)
stores a record whose header height equals the key's height component
and whose header hash equals the key's hash component, and every entry
at or above the sentinel is a stored height in the tips table or the
index.  This holds of every tree the operations build and is the
precondition under which the tip invariant is preserved. -/
def coherentB {S : Type} (ops : BlkOps S) (t : BlockTree S) : Bool :=
  t.backend.all fun kv =>
    match kv.2 with
    | Val.rcd r => decide (kv.1.1 < TIPH) && decide (r.header.height = kv.1.1) &&
        decide (ops.hashHeader r.header = kv.1.2)
    | Val.ht _ => decide (kv.1.1 = TIPH) || decide (kv.1.1 = IDXH)

theorem tipInv_iff {S : Type} (t : BlockTree S) (hs : alSorted keyLtB t.backend) :
    tipInvB t = true ↔ tipInvariant t := by
  constructor
  · intro hB hsh
    constructor
    · intro hL
      obtain ⟨v, hv⟩ := Option.isSome_iff_exists.1 hL
      have hmem := alGet_mem hv
      have hA := List.all_eq_true.1 hB _ hmem
      rw [Bool.and_eq_true] at hA
      have hA1 := hA.1
      simp only [tip_key, if_true] at hA1
      rw [hasChildlessRec] at hA1
      obtain ⟨kv2, hmem2, hcond⟩ := List.any_eq_true.1 hA1
      rcases hkv2 : kv2 with ⟨⟨kh, kx⟩, w⟩
      rw [hkv2] at hcond hmem2
      rcases hval2 : w with r | n
      · rw [hval2] at hcond hmem2
        simp only [Bool.and_eq_true, decide_eq_true_eq] at hcond
        obtain ⟨⟨hlt, hky⟩, hnil⟩ := hcond
        refine ⟨kh, r, hlt, ?_, hnil⟩
        have hget2 : alGet t.backend (kh, kx) = some (Val.rcd r) :=
          alMem_get keyLtB keyLtB_irr hs hmem2
        rw [main_key, ← hky]
        exact hget2
      · rw [hval2] at hcond
        cases hcond
    · rintro ⟨ht2, r, hlt, hget, hnil⟩
      have hmem := alGet_mem hget
      have hA := List.all_eq_true.1 hB _ hmem
      rw [Bool.and_eq_true] at hA
      have hA2 := hA.2
      simp only [main_key] at hA2
      rw [if_pos ⟨hlt, hnil⟩] at hA2
      exact hA2
  · intro hP
    rw [tipInvB, List.all_eq_true]
    intro kv hmem
    rcases hkv : kv with ⟨⟨kh, kx⟩, w⟩
    rw [hkv] at hmem
    rw [Bool.and_eq_true]
    constructor
    · by_cases htk : kh = TIPH
      · simp only [if_pos htk]
        have hget : alGet t.backend (kh, kx) = some w :=
          alMem_get keyLtB keyLtB_irr hs hmem
        have hL : (alGet t.backend (tip_key kx)).isSome := by
          rw [tip_key, ← htk, hget]
          rfl
        obtain ⟨ht2, r, hlt, hget2, hnil⟩ := (hP kx).1 hL
        rw [hasChildlessRec, List.any_eq_true]
        refine ⟨(main_key kx ht2, Val.rcd r), alGet_mem hget2, ?_⟩
        simp [main_key, hlt, hnil]
      · simp only [if_neg htk]
    · rcases hval : w with r | n
      · by_cases hcnd : kh < TIPH ∧ r.next = []
        · simp only [if_pos hcnd]
          have hget : alGet t.backend (kh, kx) = some (Val.rcd r) := by
            rw [← hval]
            exact alMem_get keyLtB keyLtB_irr hs hmem
          exact (hP kx).2 ⟨kh, r, hcnd.1, hget, hcnd.2⟩
        · simp only [if_neg hcnd]
      · rfl

/-- C1, amended.  A successful `apply_block` preserves the tip-table
invariant, on coherent trees and for an injective header hash, provided
the block's height is a real height (below the tips sentinel) and its
hash is not its own parent pointer.  (The invariant holds of the empty
tree trivially, but it is *not* an invariant of all reachable states:
`delete_tips` reinstates the parent of each removed tip into the tips
table even when that parent retains another child — see the
counterexample.) -/
theorem apply_block_preserves_tip_invariant {S : Type} (ops : BlkOps S)
    (t t1 : BlockTree S) (b : Block) (m : List Nat)
    (hinj : Function.Injective ops.hashHeader)
    (hcoh : coherentB ops t = true)
    (hinv : tipInvariant t)
    (hht : b.header.height < TIPH)
    (hbne : ops.hashHeader b.header ≠ b.header.previous)
    (happ : apply_block ops t b m = ApplyResult.ok t1) :
    tipInvariant t1 := by
  have hT1 : TIPH < IDXH := by decide
  rcases hp0 : get_block t b.header.previous (some (b.header.height - 1)) with _ | p
  · simp only [apply_block, hp0] at happ
    cases happ
  simp only [apply_block, hp0] at happ
  rcases hv0 : ops.apply_blk (InternalValue.to_state ops p t.cache) b with e | s2
  · simp only [hv0] at happ
    cases happ
  simp only [hv0] at happ
  by_cases hhd : ops.headerOf s2 = b.header
  case neg => rw [if_neg hhd] at happ; cases happ
  case pos =>
  rw [if_pos hhd] at happ
  have ht1 : t1 = insert_block ops t s2 m := (ApplyResult.ok.inj happ).symm
  have hprev2 : b.header.previous ≠ ops.hashHeader b.header := fun hx => hbne hx.symm
  -- the parent's main entry and its coherence facts
  have hback : alGet t.backend (main_key b.header.previous (b.header.height - 1)) =
      some (Val.rcd p) := by
    simp only [get_block, internal_get] at hp0
    rcases hb2 : alGet t.backend (main_key b.header.previous (b.header.height - 1)) with
      _ | v2
    · rw [hb2] at hp0; cases hp0
    · rw [hb2] at hp0
      cases v2 with
      | rcd r => cases hp0; rfl
      | ht n => cases hp0
  have hAp := List.all_eq_true.1 hcoh _ (alGet_mem hback)
  simp only [main_key, Bool.and_eq_true, decide_eq_true_eq] at hAp
  obtain ⟨⟨hplt, hpht⟩, hphash⟩ := hAp
  -- parent lookup during insert_block
  have d14 : main_key b.header.previous (b.header.height - 1) ≠
      main_key (ops.hashHeader b.header) b.header.height := by
    intro hx
    rw [main_key, main_key, Prod.mk.injEq] at hx
    exact hprev2 hx.2
  have hgb1 : get_block (internal_insert t (ops.hashHeader b.header) b.header.height
      (InternalValue.from_state ops s2 (ops.proposer_action s2) m))
      b.header.previous (some (b.header.height - 1)) = some p := by
    simp only [get_block, internal_get, internal_insert, alGet_insert, if_neg d14, hback]
  have ht1b : t1.backend =
      alRemove (tip_key b.header.previous)
        (alInsert keyLtB (tip_key (ops.hashHeader b.header)) (Val.ht b.header.height)
          (alInsert keyLtB (index_key (ops.hashHeader b.header)) (Val.ht b.header.height)
            (alInsert keyLtB (main_key b.header.previous (b.header.height - 1))
              (Val.rcd { p with next := setInsert (ops.hashHeader b.header) p.next })
              (alInsert keyLtB (main_key (ops.hashHeader b.header) b.header.height)
                (Val.rcd (InternalValue.from_state ops s2 (ops.proposer_action s2) m))
                t.backend)))) := by
    rw [ht1]
    simp only [insert_block, hhd, hgb1, hpht]
    simp only [cache_insert, tip_remove, tip_insert, index_insert, internal_insert]
  have gback : ∀ k : Key, alGet t1.backend k =
      (if k = tip_key b.header.previous then none
       else if k = tip_key (ops.hashHeader b.header) then some (Val.ht b.header.height)
       else if k = index_key (ops.hashHeader b.header) then some (Val.ht b.header.height)
       else if k = main_key b.header.previous (b.header.height - 1) then
         some (Val.rcd { p with next := setInsert (ops.hashHeader b.header) p.next })
       else if k = main_key (ops.hashHeader b.header) b.header.height then
         some (Val.rcd (InternalValue.from_state ops s2 (ops.proposer_action s2) m))
       else alGet t.backend k) := by
    intro k
    rw [ht1b, alGet_remove, alGet_insert, alGet_insert, alGet_insert, alGet_insert]
  intro hsh
  by_cases hc1 : hsh = b.header.previous
  · subst hc1
    constructor
    · intro hL
      rw [gback, if_pos rfl] at hL
      exact absurd hL (by simp)
    · rintro ⟨ht2, r, hlt, hget, hnil⟩
      exfalso
      rw [gback] at hget
      rw [if_neg (show main_key b.header.previous ht2 ≠ tip_key b.header.previous by
        intro hx; rw [main_key, tip_key, Prod.mk.injEq] at hx; omega)] at hget
      rw [if_neg (show main_key b.header.previous ht2 ≠ tip_key (ops.hashHeader b.header) by
        intro hx; rw [main_key, tip_key, Prod.mk.injEq] at hx; omega)] at hget
      rw [if_neg (show main_key b.header.previous ht2 ≠ index_key (ops.hashHeader b.header) by
        intro hx; rw [main_key, index_key, Prod.mk.injEq] at hx; omega)] at hget
      by_cases hc4 : ht2 = b.header.height - 1
      · rw [hc4, if_pos rfl] at hget
        have hr := Val.rcd.inj (Option.some.inj hget)
        rw [← hr] at hnil
        exact setInsert_ne_nil _ _ hnil
      · rw [if_neg (show main_key b.header.previous ht2 ≠
            main_key b.header.previous (b.header.height - 1) by
          intro hx; rw [main_key, main_key, Prod.mk.injEq] at hx; exact hc4 hx.1)] at hget
        rw [if_neg (show main_key b.header.previous ht2 ≠
            main_key (ops.hashHeader b.header) b.header.height by
          intro hx; rw [main_key, main_key, Prod.mk.injEq] at hx
          exact hprev2 hx.2)] at hget
        have hAr := List.all_eq_true.1 hcoh _ (alGet_mem hget)
        simp only [main_key, Bool.and_eq_true, decide_eq_true_eq] at hAr
        obtain ⟨⟨hrlt, hrht⟩, hrhash⟩ := hAr
        have hre : r.header = p.header := hinj (by rw [hrhash, hphash])
        apply hc4
        rw [← hrht, hre, hpht]
  by_cases hc2 : hsh = ops.hashHeader b.header
  · subst hc2
    constructor
    · intro _
      refine ⟨b.header.height,
        InternalValue.from_state ops s2 (ops.proposer_action s2) m, hht, ?_, rfl⟩
      rw [gback]
      rw [if_neg (show main_key (ops.hashHeader b.header) b.header.height ≠
          tip_key b.header.previous by
        intro hx; rw [main_key, tip_key, Prod.mk.injEq] at hx; omega)]
      rw [if_neg (show main_key (ops.hashHeader b.header) b.header.height ≠
          tip_key (ops.hashHeader b.header) by
        intro hx; rw [main_key, tip_key, Prod.mk.injEq] at hx; omega)]
      rw [if_neg (show main_key (ops.hashHeader b.header) b.header.height ≠
          index_key (ops.hashHeader b.header) by
        intro hx; rw [main_key, index_key, Prod.mk.injEq] at hx; omega)]
      rw [if_neg (show main_key (ops.hashHeader b.header) b.header.height ≠
          main_key b.header.previous (b.header.height - 1) by
        intro hx; rw [main_key, main_key, Prod.mk.injEq] at hx
        exact hbne hx.2)]
      rw [if_pos rfl]
    · intro _
      rw [gback]
      rw [if_neg (show tip_key (ops.hashHeader b.header) ≠ tip_key b.header.previous by
        intro hx; rw [tip_key, tip_key, Prod.mk.injEq] at hx
        exact hbne hx.2)]
      rw [if_pos rfl]
      rfl
  · have hLHS : alGet t1.backend (tip_key hsh) = alGet t.backend (tip_key hsh) := by
      rw [gback]
      rw [if_neg (show tip_key hsh ≠ tip_key b.header.previous by
        intro hx; rw [tip_key, tip_key, Prod.mk.injEq] at hx; exact hc1 hx.2)]
      rw [if_neg (show tip_key hsh ≠ tip_key (ops.hashHeader b.header) by
        intro hx; rw [tip_key, tip_key, Prod.mk.injEq] at hx; exact hc2 hx.2)]
      rw [if_neg (show tip_key hsh ≠ index_key (ops.hashHeader b.header) by
        intro hx; rw [tip_key, index_key, Prod.mk.injEq] at hx; omega)]
      rw [if_neg (show tip_key hsh ≠
          main_key b.header.previous (b.header.height - 1) by
        intro hx; rw [tip_key, main_key, Prod.mk.injEq] at hx; omega)]
      rw [if_neg (show tip_key hsh ≠
          main_key (ops.hashHeader b.header) b.header.height by
        intro hx; rw [tip_key, main_key, Prod.mk.injEq] at hx; omega)]
    have hMAIN : ∀ ht2 : Nat, alGet t1.backend (main_key hsh ht2) =
        alGet t.backend (main_key hsh ht2) := by
      intro ht2
      rw [gback]
      rw [if_neg (show main_key hsh ht2 ≠ tip_key b.header.previous by
        intro hx; rw [main_key, tip_key, Prod.mk.injEq] at hx; exact hc1 hx.2)]
      rw [if_neg (show main_key hsh ht2 ≠ tip_key (ops.hashHeader b.header) by
        intro hx; rw [main_key, tip_key, Prod.mk.injEq] at hx; exact hc2 hx.2)]
      rw [if_neg (show main_key hsh ht2 ≠ index_key (ops.hashHeader b.header) by
        intro hx; rw [main_key, index_key, Prod.mk.injEq] at hx; exact hc2 hx.2)]
      rw [if_neg (show main_key hsh ht2 ≠
          main_key b.header.previous (b.header.height - 1) by
        intro hx; rw [main_key, main_key, Prod.mk.injEq] at hx; exact hc1 hx.2)]
      rw [if_neg (show main_key hsh ht2 ≠
          main_key (ops.hashHeader b.header) b.header.height by
        intro hx; rw [main_key, main_key, Prod.mk.injEq] at hx; exact hc2 hx.2)]
    constructor
    · intro hL
      rw [hLHS] at hL
      obtain ⟨ht2, r, hlt, hget, hnil⟩ := (hinv hsh).1 hL
      exact ⟨ht2, r, hlt, by rw [hMAIN ht2]; exact hget, hnil⟩
    · rintro ⟨ht2, r, hlt, hget, hnil⟩
      rw [hLHS]
      exact (hinv hsh).2 ⟨ht2, r, hlt, by rw [← hMAIN ht2]; exact hget, hnil⟩

/-- Extract the tree of a successful `apply_block`. -/
def asOk {S : Type} : ApplyResult S → Option (BlockTree S)
  | ApplyResult.ok t => some t
  | _ => none

/-- Extract the tree of a non-panicking removal. -/
def asRc {S : Type} : RcOut S → Option (BlockTree S)
  | RcOut.ok t => some t
  | RcOut.panicAt _ => none

/-- A run from the empty backend: `set_genesis(G)` (height 1, hash 10),
then blocks 11 on 10, 12 on 11, 13 on 10 (a fork at the genesis), then
`delete_tips`.  Every step completes without error or panic. -/
def c1chain : Option (BlockTree Header) :=
  (set_genesis bOpsW (emptyTree Header) gHdr []).bind fun u1 =>
  (asOk (apply_block bOpsW u1 bA [])).bind fun u2 =>
  (asOk (apply_block bOpsW u2 ⟨⟨3, 11, 12⟩, 0⟩ [])).bind fun u3 =>
  (asOk (apply_block bOpsW u3 ⟨⟨2, 10, 13⟩, 0⟩ [])).bind fun u4 =>
  asRc (delete_tips bOpsW u4)

def c1final : BlockTree Header := c1chain.getD (emptyTree Header)

/-- C1, counterexample.  The tree `c1final` is reachable from an empty
backend by one `set_genesis`, three successful `apply_block`s and one
completed `delete_tips`, yet the tip-table invariant fails in it:
`delete_tips` removed the tips 12 and 13 and reinstated their parents
11 and 10 as tips, although 10 (the genesis) still has the remaining
child 11 — so hash 10 is in the tips table while its record's children
set is non-empty. -/
theorem tip_invariant_counterexample :
    c1chain = some c1final ∧
    alSorted keyLtB c1final.backend ∧
    tipInvB c1final = false ∧
    ¬ tipInvariant c1final := by
  refine ⟨by decide, by decide, by decide, ?_⟩
  intro hP
  have hB := (tipInv_iff c1final (by decide)).2 hP
  have hF : tipInvB c1final = false := by decide
  rw [hF] at hB
  cases hB

/-- An injective header hash for the preservation witness. -/
theorem pairHash_inj :
    Function.Injective (fun hd : Header => Nat.pair hd.height (Nat.pair hd.previous hd.rest)) := by
  intro a b h
  simp only [Nat.pair_eq_pair] at h
  obtain ⟨h1, h2, h3⟩ := h
  cases a
  cases b
  simp_all

/-- Collaborators whose header hash is injective (`Nat.pair` of all
header fields). -/
def bOpsInj : BlkOps Header :=
  { bOpsW with hashHeader := fun hd => Nat.pair hd.height (Nat.pair hd.previous hd.rest) }

theorem bOpsInj_hash_inj : Function.Injective bOpsInj.hashHeader := pairHash_inj

/-- Genesis record for the preservation witness (hash `Nat.pair 1 0 = 2`). -/
def gInjRec : InternalValue := ⟨⟨1, 0, 0⟩, [0], none, [], []⟩

def gInjTree : BlockTree Header :=
  ⟨[((1, 2), Val.rcd gInjRec), ((TIPH, 2), Val.ht 1), ((IDXH, 2), Val.ht 1)],
   [(2, ⟨1, 0, 0⟩)]⟩

/-- A block on top of the injective-hash genesis. -/
def bInj : Block := ⟨⟨2, 2, 0⟩, 0⟩

def c1wT1 : BlockTree Header :=
  match apply_block bOpsInj gInjTree bInj [] with
  | ApplyResult.ok u => u
  | _ => gInjTree

/-- C1, witness: a successful application on the coherent genesis tree
preserves the tip invariant. -/
theorem apply_block_preserves_tip_invariant_witness : tipInvariant c1wT1 :=
  apply_block_preserves_tip_invariant bOpsInj gInjTree c1wT1 bInj []
    bOpsInj_hash_inj (by decide)
    ((tipInv_iff gInjTree (by decide)).1 (by decide))
    (by decide) (by decide) rfl
